import Mathlib

/-!
Verification of the bookmark-manager repository (two implementations:
`src/script.js` with classes `BookmarkDB` / `BookmarkApp`, and the unnamed
IIFE implementation in `src/unnamed/part_000`).

The IndexedDB object store is embedded as a list of records plus the
auto-increment counter; each store operation from the sources becomes a pure
function on that state. JavaScript string helpers (trim, toLowerCase,
includes, split) are embedded as executable functions over `List Char`.
-/

/-- Set of characters matched by the JavaScript regex class `\s` (and removed
by `String.prototype.trim`), identified by code point. -/
def jsWhitespaceChar (c : Char) : Bool :=
  let n := c.toNat
  n = 32 || n = 9 || n = 10 || n = 13 || n = 11 || n = 12 ||
  n = 0xa0 || n = 0x1680 || (0x2000 ≤ n && n ≤ 0x200a) ||
  n = 0x2028 || n = 0x2029 || n = 0x202f || n = 0x205f || n = 0x3000 || n = 0xfeff

/-- Model of `String.prototype.trim` on the character list: drop leading and
trailing whitespace. -/
def jsTrimL (l : List Char) : List Char :=
  ((l.dropWhile jsWhitespaceChar).reverse.dropWhile jsWhitespaceChar).reverse

/-- Model of `String.prototype.trim`. -/
def jsTrim (s : String) : String := String.mk (jsTrimL s.data)

/-- Model of the simple-lowercase mapping used by `String.prototype.toLowerCase`
on the ASCII range: `A`..`Z` (code points 65..90) map 32 code points up; every
other character is kept. The sources only lowercase user text compared by the
keyword filter and the tag deduplicator. -/
def toLowerChar (c : Char) : Char :=
  if 65 ≤ c.toNat ∧ c.toNat ≤ 90 then Char.ofNat (c.toNat + 32) else c

/-- Model of `String.prototype.toLowerCase`. -/
def lowerStr (s : String) : String := String.mk (s.data.map toLowerChar)

/-- Containment of `sub` as a contiguous run inside a character list; the
recursion tries every starting position, as `String.prototype.includes` does. -/
def charsIncl (sub : List Char) : List Char → Bool
  | [] => sub.isEmpty
  | c :: cs => sub.isPrefixOf (c :: cs) || charsIncl sub cs

/-- Model of `hay.includes(sub)` for JavaScript strings. -/
def strIncludes (hay sub : String) : Bool := charsIncl sub.data hay.data

/-- Model of `Array.prototype.join(sep)` for an array of strings. -/
def joinSep (sep : String) : List String → String
  | [] => ""
  | [x] => x
  | x :: y :: xs => x ++ sep ++ joinSep sep (y :: xs)

/-- Decimal digit as a character, for the decimal rendering `String(n)`. -/
def digitChar : Nat → Char
  | 0 => '0' | 1 => '1' | 2 => '2' | 3 => '3' | 4 => '4'
  | 5 => '5' | 6 => '6' | 7 => '7' | 8 => '8' | 9 => '9'
  | _ => '*'

/-- Decimal rendering of a natural number, the character list of `String(n)`. -/
def decDigits (n : Nat) : List Char :=
  if n < 10 then [digitChar n] else decDigits (n / 10) ++ [digitChar (n % 10)]
termination_by n
decreasing_by exact Nat.div_lt_self (by omega) (by omega)

/-- Model of `str.padStart(2, "0")` on the character list. -/
def padTo2 (l : List Char) : List Char := List.replicate (2 - l.length) '0' ++ l

/-- Model of `String(n).padStart(2, "0")`, as used for month, day, hour and
minute in both implementations. -/
def pad2 (n : Nat) : List Char := padTo2 (decDigits n)

/-- Numeric value of a digit character. -/
def charVal (c : Char) : Nat := c.toNat - 48

/-- Wall-clock reading taken from `new Date()` at creation time: `getFullYear`,
`getMonth() + 1`, `getDate`, `getHours`, `getMinutes`. -/
structure DateParts where
  year : Nat
  month : Nat
  day : Nat
  hour : Nat
  minute : Nat
deriving Repr, DecidableEq

/-- Ranges the browser `Date` accessors actually produce (with a four-digit
year, the case the `YYYY-MM-DD HH:MM` format presumes). -/
def validDate (d : DateParts) : Prop :=
  1000 ≤ d.year ∧ d.year ≤ 9999 ∧ 1 ≤ d.month ∧ d.month ≤ 12 ∧
  1 ≤ d.day ∧ d.day ≤ 31 ∧ d.hour ≤ 23 ∧ d.minute ≤ 59

instance (d : DateParts) : Decidable (validDate d) := by
  unfold validDate; infer_instance

/-- Order-preserving encoding of a wall-clock reading into a single number;
two readings compare under this encoding exactly as the corresponding
timestamps compare, which is all the sort comparators observe. -/
def encodeDate (d : DateParts) : Nat :=
  d.minute + 60 * (d.hour + 24 * (d.day + 32 * (d.month + 13 * d.year)))

/-- Shared date formatter: `fmtDate` in the unnamed implementation, and the
inline block in `BookmarkDB.add` of `script.js` (both render
`year-month-day hour:minute` with two-digit padding of all but the year). -/
def fmtDate (d : DateParts) : String :=
  String.mk (decDigits d.year ++ '-' :: pad2 d.month ++ '-' :: pad2 d.day ++
    ' ' :: pad2 d.hour ++ ':' :: pad2 d.minute)

/-- Parser for the canonical `YYYY-MM-DD HH:MM` shape. On success it returns
the order-preserving encoding of the named instant; any other shape fails. -/
def parseMinute? (s : String) : Option Nat :=
  match s.data with
  | [y1, y2, y3, y4, a1, m1, m2, a2, d1, d2, a3, h1, h2, a4, n1, n2] =>
    if y1.isDigit && y2.isDigit && y3.isDigit && y4.isDigit &&
       m1.isDigit && m2.isDigit && d1.isDigit && d2.isDigit &&
       h1.isDigit && h2.isDigit && n1.isDigit && n2.isDigit &&
       a1 = '-' && a2 = '-' && a3 = ' ' && a4 = ':' then
      some (encodeDate
        { year := ((charVal y1 * 10 + charVal y2) * 10 + charVal y3) * 10 + charVal y4,
          month := charVal m1 * 10 + charVal m2,
          day := charVal d1 * 10 + charVal d2,
          hour := charVal h1 * 10 + charVal h2,
          minute := charVal n1 * 10 + charVal n2 })
    else none
  | _ => none

/-- Numeric key the sort comparators order records by. Both sources compare
`new Date(createdAt)` values; for strings in the canonical minute format this
agrees with the encoding above, and for any other string the comparator has no
consistent numeric value (`NaN`), which we model as the default `0`. -/
def dateVal (s : String) : Nat := (parseMinute? s).getD 0

/-- Stored bookmark record: the object persisted in the `bookmarks` store of
both implementations (`keyPath: "id"`, `autoIncrement: true`). -/
structure Bookmark where
  id : Nat
  name : String
  url : String
  tags : List String
  createdAt : String
deriving Repr, DecidableEq

/-- State of the IndexedDB object store: the stored records (in key order, the
order `getAll` returns) plus the auto-increment key generator. -/
structure DB where
  records : List Bookmark
  nextId : Nat
deriving Repr, DecidableEq

/-- Input accepted by the create path: the validated form fields. -/
structure Draft where
  name : String
  url : String
  tags : List String
deriving Repr, DecidableEq

/-- Patch passed to the unnamed `updateBookmark`: `onFormSubmit` always sends
`name`, `url`, `tags`, and sends `createdAt` only when the edit field is
non-empty after trimming; the spread `{...val, ...data, id}` then overrides
exactly the sent fields. -/
structure EditPatch where
  name : String
  url : String
  tags : List String
  createdAt : Option String
deriving Repr, DecidableEq

/-- Failure channel of the store promises that the claims mention. -/
inductive DBError where
  | notFound
deriving Repr, DecidableEq

/-- Validation failure surfaced by the form-submit paths before any write. -/
inductive AppError where
  | validation
deriving Repr, DecidableEq

namespace BookmarkDB

/-- Model of `BookmarkDB.add` (`script.js`): stamp the current time through the
shared formatter, persist `{name, url, tags, createdAt}`; the store assigns the
next auto-increment key and the promise resolves with that key. The add path of
the unnamed implementation (`onFormSubmit` add mode plus `addBookmark`) builds
and persists the identical record. -/
def add (db : DB) (draft : Draft) (now : DateParts) : DB × Nat :=
  let bookmarkData : Bookmark :=
    { id := db.nextId, name := draft.name, url := draft.url,
      tags := draft.tags, createdAt := fmtDate now }
  ({ records := db.records ++ [bookmarkData], nextId := db.nextId + 1 }, db.nextId)

/-- Model of `BookmarkDB.get`: fetch by key, resolving with the record stored
under `id` or with `undefined` (here `none`). -/
def get (id : Nat) (db : DB) : Option Bookmark :=
  db.records.find? (fun r => r.id == id)

/-- Model of `BookmarkDB.update` (`script.js`): read the record, reject with
not-found when absent, otherwise overwrite `name`, `url`, `tags` from the
patch and put the result back under the same key; `createdAt` and `id` are
left as read. The caller of this method never sends a `createdAt`. -/
def update (id : Nat) (bookmark : Draft) (db : DB) : Except DBError DB :=
  match db.records.find? (fun r => r.id == id) with
  | none => .error .notFound
  | some data =>
    .ok { db with records := db.records.map (fun r =>
        if r.id == id then
          { id := id, name := bookmark.name, url := bookmark.url,
            tags := bookmark.tags, createdAt := data.createdAt }
        else r) }

/-- Model of `BookmarkDB.search`: lowercase and trim the query; an empty result
keeps every record, otherwise keep records whose lowercased `name` or `url`
contains the term, or one of whose `tags` contains it. -/
def search (query : String) (allBookmarks : List Bookmark) : List Bookmark :=
  let searchTerm := jsTrim (lowerStr query)
  if searchTerm = "" then allBookmarks
  else allBookmarks.filter (fun bookmark =>
    strIncludes (lowerStr bookmark.name) searchTerm ||
    strIncludes (lowerStr bookmark.url) searchTerm ||
    bookmark.tags.any (fun tag => strIncludes (lowerStr tag) searchTerm))

end BookmarkDB

/-- Model of `deleteBookmark` in the unnamed implementation and of
`BookmarkDB.delete` in `script.js`: both issue `objectStore.delete(id)`, whose
request succeeds whether or not a record is stored under `id` (IndexedDB
delete is a no-op on a missing key); the promise rejects only on storage
failure, which is outside this model, so the result is always `ok`. -/
def deleteBookmark (id : Nat) (db : DB) : Except DBError DB :=
  .ok { db with records := db.records.filter (fun r => !(r.id == id)) }

/-- Model of `updateBookmark` in the unnamed implementation: read the record
under `id`, reject with not-found when absent, otherwise put back
`{...val, ...data, id}` — the patch fields override the read record, the key is
pinned, and `createdAt` survives exactly when the patch does not carry one. -/
def updateBookmark (id : Nat) (data : EditPatch) (db : DB) : Except DBError DB :=
  match db.records.find? (fun r => r.id == id) with
  | none => .error .notFound
  | some val =>
    .ok { db with records := db.records.map (fun r =>
        if r.id == id then
          { id := id, name := data.name, url := data.url, tags := data.tags,
            createdAt := data.createdAt.getD val.createdAt }
        else r) }

/-- Model of `matchesKeyword` in the unnamed implementation: an empty keyword
matches everything; otherwise the lowercased keyword is searched in the
lowercased `name`, in the lowercased `url`, and in the lowercased
comma-joined `tags` string (`(item.tags || []).join(",")`). -/
def matchesKeyword (item : Bookmark) (kw : String) : Bool :=
  if kw = "" then true
  else
    strIncludes (lowerStr item.name) (lowerStr kw) ||
    strIncludes (lowerStr item.url) (lowerStr kw) ||
    strIncludes (lowerStr (joinSep "," item.tags)) (lowerStr kw)

/-- Claim-side keyword predicate, written from the claim and spec words: the
keyword is, case-insensitively, a substring of `name`, of `url`, or of at
least one individual entry of `tags`. -/
def claimKeywordMatch (kw : String) (b : Bookmark) : Bool :=
  strIncludes (lowerStr b.name) (lowerStr kw) ||
  strIncludes (lowerStr b.url) (lowerStr kw) ||
  b.tags.any (fun tag => strIncludes (lowerStr tag) (lowerStr kw))

/-- Separator class of the tag split in `BookmarkApp.handleFormSubmit`
(`script.js`): the regex `[,;，；\s]+`. -/
def sepCharScript (c : Char) : Bool :=
  c = ',' || c = ';' || c = '，' || c = '；' || jsWhitespaceChar c

/-- Accumulator loop collecting maximal runs of non-separator characters. -/
def splitRunsAux (p : Char → Bool) : List Char → List Char → List (List Char)
  | [], acc => if acc.isEmpty then [] else [acc.reverse]
  | c :: cs, acc =>
    if p c then
      if acc.isEmpty then splitRunsAux p cs []
      else acc.reverse :: splitRunsAux p cs []
    else splitRunsAux p cs (c :: acc)

/-- Maximal runs of non-separator characters of a list. This is JavaScript
`split(/[class]+/)` up to the empty boundary tokens that split can emit at the
ends, which the callers discard right away with their non-empty filter. -/
def splitRuns (p : Char → Bool) (l : List Char) : List (List Char) :=
  splitRunsAux p l []

/-- Model of `input.split(",")`: cut at every comma, keeping empty pieces. -/
def splitOnComma : List Char → List (List Char)
  | [] => [[]]
  | c :: cs =>
    if c = ',' then [] :: splitOnComma cs
    else
      match splitOnComma cs with
      | t :: ts => (c :: t) :: ts
      | [] => [[c]]

/-- Tag tokens produced inside `BookmarkApp.handleFormSubmit` before
deduplication: split on the separator class, trim each token, keep the
non-empty ones. -/
def tagTokens (tagsInput : String) : List String :=
  (((splitRuns sepCharScript tagsInput.data).map jsTrimL).map String.mk).filter
    (fun tag => tag ≠ "")

/-- Deduplication loop of `BookmarkApp.handleFormSubmit`: walk the tokens,
skip a token whose lowercase form was seen, otherwise emit it (first-seen
casing) and record its lowercase form. -/
def uniqueTags (lowerCaseTags : List String) : List String → List String
  | [] => []
  | tag :: rest =>
    if lowerStr tag ∈ lowerCaseTags then uniqueTags lowerCaseTags rest
    else tag :: uniqueTags (lowerStr tag :: lowerCaseTags) rest

namespace BookmarkApp

/-- Tag normalization of `BookmarkApp.handleFormSubmit` (`script.js`): trim the
raw field; an empty field yields no tags, otherwise split, trim, filter and
deduplicate case-insensitively. -/
def normalizeTags (raw : String) : List String :=
  let tagsInput := jsTrim raw
  if tagsInput = "" then [] else uniqueTags [] (tagTokens tagsInput)

end BookmarkApp

/-- Token pipeline of `parseTags` in the unnamed implementation, before the
truncation: split on ASCII commas only, trim, keep non-empty. -/
def parseTagsTokens (input : String) : List String :=
  (((splitOnComma input.data).map jsTrimL).map String.mk).filter (fun s => s ≠ "")

/-- Model of `parseTags` in the unnamed implementation: empty input yields no
tags; otherwise split on commas, trim, filter, and keep only the first twelve
tokens (`slice(0, 12)`). -/
def parseTags (input : String) : List String :=
  if input = "" then [] else (parseTagsTokens input).take 12

/-- The same pipeline without the `slice(0, 12)` truncation, named for the
comparison in the truncation claim. -/
def parseTagsNoCap (input : String) : List String :=
  if input = "" then [] else parseTagsTokens input

/-- Scheme check of the WHATWG URL constructor: after the leading ASCII
letter, scheme characters (ASCII alphanumeric, `+`, `-`, `.`) must run into a
`:`. -/
def hasSchemeColon : List Char → Bool
  | [] => false
  | c :: cs =>
    if c = ':' then true
    else (c.isAlphanum || c = '+' || c = '-' || c = '.') && hasSchemeColon cs

/-- Modelled from the platform API both sources call: `new URL(url)` can
succeed only when the input starts with a scheme (an ASCII letter followed by
scheme characters and a `:`); any input without such a lead-in throws. The
model keeps exactly this necessary condition and treats scheme-led inputs as
parseable, an over-approximation; the validation claims only rely on the
failure side, where the model is sound. -/
def urlParses (s : String) : Bool :=
  match s.data with
  | [] => false
  | c :: cs => c.isAlpha && hasSchemeColon cs

/-- Scheme name before the first `:`. -/
def schemeChars : List Char → List Char
  | [] => []
  | c :: cs => if c = ':' then [] else c :: schemeChars cs

/-- Model of `isValidUrl` in the unnamed implementation: the URL must parse
and its protocol must be `http:` or `https:`. -/
def isValidUrl (url : String) : Bool :=
  urlParses url &&
    (let sch := lowerStr (String.mk (schemeChars url.data))
     sch = "http" || sch = "https")

/-- Page size shared by both implementations (`itemsPerPage` and
`PAGE_SIZE`). -/
def pageSize : Nat := 12

/-- Model of `Math.ceil(n / 12)`, the page count both implementations compute
from the filtered length. -/
def totalPages (n : Nat) : Nat := (n + 11) / 12

/-- Page slice rendered for 1-based page `p`: `slice((p-1)*12, (p-1)*12+12)`
of the filtered, sorted list, as in `renderBookmarks` and `renderList`. -/
def pageSlice (l : List Bookmark) (page : Nat) : List Bookmark :=
  (l.drop ((page - 1) * 12)).take 12

namespace BookmarkApp

/-- Model of `BookmarkApp.goToPage` (`script.js`): a requested page outside
`1..totalPages` returns early, leaving the current page unchanged; otherwise
the requested page becomes current. -/
def goToPage (filteredLen currentPage page : Nat) : Nat :=
  let tp := totalPages filteredLen
  if page < 1 || page > tp then currentPage else page

end BookmarkApp

/-- Page correction in `renderList` of the unnamed implementation:
`pages = max(1, ceil(total / PAGE_SIZE))`, and a current page above `pages` is
clamped down to `pages`; no correction is applied below. -/
def renderListPage (total page : Nat) : Nat :=
  let pages := max 1 ((total + 11) / 12)
  if page > pages then pages else page

/-- Stable descending insertion by the date key: the incoming element lands
before the first element whose key is not larger, so earlier input stays first
on ties. -/
def insertByDateDesc (b : Bookmark) : List Bookmark → List Bookmark
  | [] => [b]
  | y :: ys =>
    if dateVal y.createdAt ≤ dateVal b.createdAt then b :: y :: ys
    else y :: insertByDateDesc b ys

/-- Model of `filtered.sort((a, b) => dateB - dateA)` in `loadBookmarks`,
`refreshList` and `exportToExcel`: the ECMAScript sort is stable and the
comparator is a consistent descending order on the date keys, so the result is
the unique stable descending reordering, computed here by stable insertion. -/
def sortByDateDesc : List Bookmark → List Bookmark
  | [] => []
  | x :: xs => insertByDateDesc x (sortByDateDesc xs)

/-- Flat row of the export table: columns id, name, url, joined tags, and
creation date, in this order. -/
structure ExportRow where
  id : Nat
  name : String
  url : String
  tags : String
  createdAt : String
deriving Repr, DecidableEq

/-- Row projection of `BookmarkApp.exportToExcel` (`script.js`): tags joined
with the full-width comma. -/
def scriptExportRow (b : Bookmark) : ExportRow :=
  { id := b.id, name := b.name, url := b.url,
    tags := joinSep "，" b.tags, createdAt := b.createdAt }

/-- Row projection of `exportToExcel` in the unnamed implementation: tags
joined with a comma and space. -/
def unnamedExportRow (b : Bookmark) : ExportRow :=
  { id := b.id, name := b.name, url := b.url,
    tags := joinSep ", " b.tags, createdAt := b.createdAt }

namespace BookmarkApp

/-- Model of `BookmarkApp.exportToExcel` (`script.js`): with no records the
export aborts with a toast and writes nothing; otherwise the full record set
is sorted by creation date descending and projected to rows. -/
def exportToExcel (db : DB) : Option (List ExportRow) :=
  if db.records.isEmpty then none
  else some ((sortByDateDesc db.records).map scriptExportRow)

/-- Model of the add path of `BookmarkApp.handleFormSubmit` (`script.js`):
trim the fields, reject when name or url is empty, reject when `new URL`
throws — in both cases before any store call, so the state is returned
untouched inside the error — and otherwise add the record built from the
normalized tags. -/
def handleFormSubmitAdd (db : DB) (now : DateParts) (nameIn urlIn tagsIn : String) :
    Except AppError (DB × Nat) :=
  let name := jsTrim nameIn
  let url := jsTrim urlIn
  if name = "" || url = "" then .error .validation
  else if urlParses url then
    .ok (BookmarkDB.add db { name := name, url := url, tags := normalizeTags tagsIn } now)
  else .error .validation

end BookmarkApp

/-- Model of `exportToExcel` in the unnamed implementation: every stored
record is projected to a row in store order; no sort is applied. -/
def exportToExcel (db : DB) : List ExportRow :=
  db.records.map unnamedExportRow

/-- Patch built by the edit branch of `onFormSubmit` in the unnamed
implementation: trimmed name and url, parsed tags, and `createdAt` only when
the trimmed field is non-empty (`if (createdAt) data.createdAt = createdAt`). -/
def buildEditPatch (nameIn urlIn tagsIn createdIn : String) : EditPatch :=
  let createdAt := jsTrim createdIn
  { name := jsTrim nameIn, url := jsTrim urlIn, tags := parseTags tagsIn,
    createdAt := if createdAt = "" then none else some createdAt }

/-! ## Helper lemmas: decimal digits and the date format -/

theorem charVal_digitChar (k : Nat) (h : k < 10) : charVal (digitChar k) = k := by
  interval_cases k <;> decide

theorem isDigit_digitChar (k : Nat) (h : k < 10) : (digitChar k).isDigit = true := by
  interval_cases k <;> decide

theorem decDigits_one (n : Nat) (h : n < 10) : decDigits n = [digitChar n] := by
  rw [decDigits, if_pos h]

theorem decDigits_two (n : Nat) (h1 : 10 ≤ n) (h2 : n < 100) :
    decDigits n = [digitChar (n / 10), digitChar (n % 10)] := by
  rw [decDigits, if_neg (by omega), decDigits_one (n / 10) (by omega)]
  rfl

theorem pad2_eq (n : Nat) (h : n < 100) :
    pad2 n = [digitChar (n / 10), digitChar (n % 10)] := by
  by_cases h10 : n < 10
  · have e1 : n / 10 = 0 := by omega
    have e2 : n % 10 = n := by omega
    unfold pad2 padTo2
    rw [decDigits_one n h10, e1, e2]
    rfl
  · unfold pad2 padTo2
    rw [decDigits_two n (by omega) h]
    rfl

theorem decDigits_four (y : Nat) (h1 : 1000 ≤ y) (h2 : y ≤ 9999) :
    decDigits y = [digitChar (y / 1000), digitChar (y / 100 % 10),
      digitChar (y / 10 % 10), digitChar (y % 10)] := by
  have e1 : y / 10 / 10 = y / 100 := by omega
  have e2 : y / 100 / 10 = y / 1000 := by omega
  rw [decDigits, if_neg (by omega)]
  rw [decDigits, if_neg (by omega), e1]
  rw [decDigits, if_neg (by omega), e2]
  rw [decDigits_one (y / 1000) (by omega)]
  rfl

theorem parse_fmtDate (d : DateParts) (h : validDate d) :
    parseMinute? (fmtDate d) = some (encodeDate d) := by
  obtain ⟨y, mo, da, ho, mi⟩ := d
  obtain ⟨hy1, hy2, hm1, hm2, hd1, hd2, hh, hn⟩ := h
  simp only at hy1 hy2 hm1 hm2 hd1 hd2 hh hn
  unfold fmtDate
  rw [decDigits_four y hy1 hy2, pad2_eq mo (by omega), pad2_eq da (by omega),
    pad2_eq ho (by omega), pad2_eq mi (by omega)]
  show parseMinute? (String.mk [digitChar (y / 1000), digitChar (y / 100 % 10),
    digitChar (y / 10 % 10), digitChar (y % 10), '-', digitChar (mo / 10),
    digitChar (mo % 10), '-', digitChar (da / 10), digitChar (da % 10), ' ',
    digitChar (ho / 10), digitChar (ho % 10), ':', digitChar (mi / 10),
    digitChar (mi % 10)]) = _
  unfold parseMinute?
  simp only [isDigit_digitChar _ (by omega : y / 1000 < 10),
    isDigit_digitChar _ (by omega : y / 100 % 10 < 10),
    isDigit_digitChar _ (by omega : y / 10 % 10 < 10),
    isDigit_digitChar _ (by omega : y % 10 < 10),
    isDigit_digitChar _ (by omega : mo / 10 < 10),
    isDigit_digitChar _ (by omega : mo % 10 < 10),
    isDigit_digitChar _ (by omega : da / 10 < 10),
    isDigit_digitChar _ (by omega : da % 10 < 10),
    isDigit_digitChar _ (by omega : ho / 10 < 10),
    isDigit_digitChar _ (by omega : ho % 10 < 10),
    isDigit_digitChar _ (by omega : mi / 10 < 10),
    isDigit_digitChar _ (by omega : mi % 10 < 10),
    charVal_digitChar _ (by omega : y / 1000 < 10),
    charVal_digitChar _ (by omega : y / 100 % 10 < 10),
    charVal_digitChar _ (by omega : y / 10 % 10 < 10),
    charVal_digitChar _ (by omega : y % 10 < 10),
    charVal_digitChar _ (by omega : mo / 10 < 10),
    charVal_digitChar _ (by omega : mo % 10 < 10),
    charVal_digitChar _ (by omega : da / 10 < 10),
    charVal_digitChar _ (by omega : da % 10 < 10),
    charVal_digitChar _ (by omega : ho / 10 < 10),
    charVal_digitChar _ (by omega : ho % 10 < 10),
    charVal_digitChar _ (by omega : mi / 10 < 10),
    charVal_digitChar _ (by omega : mi % 10 < 10)]
  simp only [decide_True, Bool.and_self, if_true, Option.some.injEq]
  unfold encodeDate
  dsimp only
  omega

/-! ## Helper lemmas: the keyed store -/

theorem find?_append_last {p : Bookmark → Bool} (l : List Bookmark) (b : Bookmark)
    (hl : ∀ r ∈ l, p r = false) (hb : p b = true) :
    (l ++ [b]).find? p = some b := by
  induction l with
  | nil => simp [List.find?_cons_of_pos, hb]
  | cons y ys ih =>
    have hy : p y = false := hl y (by simp)
    rw [List.cons_append, List.find?_cons_of_neg _ (by simp [hy])]
    exact ih (fun r hr => hl r (by simp [hr]))

theorem find?_map_update (l : List Bookmark) (id : Nat) (newB : Bookmark)
    (hnew : newB.id = id)
    (hfind : (l.find? (fun r => r.id == id)).isSome = true) :
    (l.map (fun r => if r.id == id then newB else r)).find? (fun r => r.id == id) =
      some newB := by
  induction l with
  | nil => simp [List.find?] at hfind
  | cons y ys ih =>
    by_cases hy : (y.id == id) = true
    · rw [List.map_cons, if_pos hy]
      exact List.find?_cons_of_pos _ (by simp [hnew])
    · have hy' : (y.id == id) = false := by simpa using hy
      rw [List.find?_cons_of_neg _ (by simp [hy'])] at hfind
      rw [List.map_cons, if_neg (by simp [hy']), List.find?_cons_of_neg _ (by simp [hy'])]
      exact ih hfind

theorem find?_filter_ne (l : List Bookmark) (id : Nat) :
    (l.filter (fun r => !(r.id == id))).find? (fun r => r.id == id) = none := by
  rw [List.find?_eq_none]
  intro x hx
  have hx' := List.of_mem_filter hx
  simp at hx' ⊢
  exact hx'

theorem filter_ne_of_absent (l : List Bookmark) (id : Nat)
    (h : l.find? (fun r => r.id == id) = none) :
    l.filter (fun r => !(r.id == id)) = l := by
  rw [List.find?_eq_none] at h
  rw [List.filter_eq_self]
  intro a ha
  have := h a ha
  simpa using this

/-! ## Helper lemmas: the stable descending sort -/

theorem insertByDateDesc_perm (b : Bookmark) (l : List Bookmark) :
    (insertByDateDesc b l).Perm (b :: l) := by
  induction l with
  | nil => exact List.Perm.refl _
  | cons y ys ih =>
    unfold insertByDateDesc
    by_cases h : dateVal y.createdAt ≤ dateVal b.createdAt
    · rw [if_pos h]
    · rw [if_neg h]
      exact (ih.cons y).trans (List.Perm.swap b y ys)

theorem sortByDateDesc_perm (l : List Bookmark) : (sortByDateDesc l).Perm l := by
  induction l with
  | nil => exact List.Perm.refl _
  | cons x xs ih =>
    unfold sortByDateDesc
    exact (insertByDateDesc_perm x _).trans (ih.cons x)

theorem mem_insertByDateDesc {b z : Bookmark} {l : List Bookmark} :
    z ∈ insertByDateDesc b l ↔ z = b ∨ z ∈ l := by
  rw [(insertByDateDesc_perm b l).mem_iff]
  simp

theorem insertByDateDesc_sorted (b : Bookmark) (l : List Bookmark)
    (h : l.Pairwise (fun a c => dateVal c.createdAt ≤ dateVal a.createdAt)) :
    (insertByDateDesc b l).Pairwise
      (fun a c => dateVal c.createdAt ≤ dateVal a.createdAt) := by
  induction l with
  | nil => simp [insertByDateDesc]
  | cons y ys ih =>
    rw [List.pairwise_cons] at h
    obtain ⟨hy, hys⟩ := h
    unfold insertByDateDesc
    by_cases hcmp : dateVal y.createdAt ≤ dateVal b.createdAt
    · rw [if_pos hcmp, List.pairwise_cons]
      refine ⟨?_, List.pairwise_cons.mpr ⟨hy, hys⟩⟩
      intro z hz
      rcases List.mem_cons.mp hz with rfl | hz2
      · exact hcmp
      · exact (hy z hz2).trans hcmp
    · rw [if_neg hcmp, List.pairwise_cons]
      refine ⟨?_, ih hys⟩
      intro z hz
      rcases mem_insertByDateDesc.mp hz with rfl | hz2
      · omega
      · exact hy z hz2

theorem sortByDateDesc_sorted (l : List Bookmark) :
    (sortByDateDesc l).Pairwise
      (fun a c => dateVal c.createdAt ≤ dateVal a.createdAt) := by
  induction l with
  | nil => simp [sortByDateDesc]
  | cons x xs ih =>
    unfold sortByDateDesc
    exact insertByDateDesc_sorted x _ ih

theorem insertByDateDesc_filter (b : Bookmark) (l : List Bookmark) (k : Nat) :
    (insertByDateDesc b l).filter (fun r => dateVal r.createdAt == k) =
    (b :: l).filter (fun r => dateVal r.createdAt == k) := by
  induction l with
  | nil => rfl
  | cons y ys ih =>
    unfold insertByDateDesc
    by_cases hcmp : dateVal y.createdAt ≤ dateVal b.createdAt
    · rw [if_pos hcmp]
    · rw [if_neg hcmp]
      have hne : dateVal b.createdAt ≠ dateVal y.createdAt := by omega
      simp only [List.filter_cons, ih]
      by_cases hbk : dateVal b.createdAt = k <;> by_cases hyk : dateVal y.createdAt = k
      · exfalso; omega
      · simp [hbk, hyk]
      · simp [hbk, hyk]
      · simp [hbk, hyk]

theorem sortByDateDesc_filter (l : List Bookmark) (k : Nat) :
    (sortByDateDesc l).filter (fun r => dateVal r.createdAt == k) =
    l.filter (fun r => dateVal r.createdAt == k) := by
  induction l with
  | nil => rfl
  | cons x xs ih =>
    unfold sortByDateDesc
    rw [insertByDateDesc_filter]
    simp only [List.filter_cons, ih]

theorem sortByDateDesc_append_newest (l : List Bookmark) (b : Bookmark)
    (h : ∀ r ∈ l, dateVal r.createdAt < dateVal b.createdAt) :
    sortByDateDesc (l ++ [b]) = b :: sortByDateDesc l := by
  induction l with
  | nil => rfl
  | cons y ys ih =>
    have hy : dateVal y.createdAt < dateVal b.createdAt := h y (by simp)
    rw [List.cons_append]
    show insertByDateDesc y (sortByDateDesc (ys ++ [b])) = b :: sortByDateDesc (y :: ys)
    rw [ih (fun r hr => h r (by simp [hr]))]
    rw [show insertByDateDesc y (b :: sortByDateDesc ys) =
      if dateVal b.createdAt ≤ dateVal y.createdAt then y :: b :: sortByDateDesc ys
      else b :: insertByDateDesc y (sortByDateDesc ys) from rfl]
    rw [if_neg (by omega)]
    rfl

/-! ## Helper lemmas: pagination -/

theorem join_pageSlices_aux (fuel : Nat) : ∀ l : List Bookmark, l.length ≤ fuel →
    ((List.range (totalPages l.length)).map (fun i => pageSlice l (i + 1))).flatten = l := by
  induction fuel with
  | zero =>
    intro l hl
    have hnil : l = [] := by
      cases l with
      | nil => rfl
      | cons a as => simp at hl
    subst hnil
    rfl
  | succ n ih =>
    intro l hl
    by_cases hnil : l = []
    · subst hnil; rfl
    · have hpos : 0 < l.length := List.length_pos.mpr hnil
      have htp : totalPages l.length = totalPages (l.length - 12) + 1 := by
        unfold totalPages; omega
      rw [htp, List.range_succ_eq_map]
      rw [List.map_cons, List.map_map, List.flatten_cons]
      have h1 : pageSlice l (0 + 1) = l.take 12 := by
        unfold pageSlice; simp
      have h2 : ((List.range (totalPages (l.length - 12))).map
          ((fun i => pageSlice l (i + 1)) ∘ Nat.succ)).flatten = l.drop 12 := by
        have hcg : ∀ i ∈ List.range (totalPages (l.length - 12)),
            ((fun i => pageSlice l (i + 1)) ∘ Nat.succ) i =
            pageSlice (l.drop 12) (i + 1) := by
          intro i _
          show pageSlice l (i + 1 + 1) = pageSlice (l.drop 12) (i + 1)
          unfold pageSlice
          rw [List.drop_drop]
          congr 2
          omega
        rw [List.map_congr_left hcg]
        have hlen : l.length - 12 = (l.drop 12).length := by
          rw [List.length_drop]
        rw [hlen]
        exact ih (l.drop 12) (by rw [List.length_drop]; omega)
      rw [h1, h2, List.take_append_drop]

/-! ## Helper lemmas: lowercasing and trimming -/

theorem char_ofNat_toNat (n : Nat) (h : n < 55296) : (Char.ofNat n).toNat = n := by
  have hv : n.isValidChar := Or.inl h
  simp only [Char.ofNat, hv, dif_pos, Char.ofNatAux, Char.toNat, UInt32.ofNat']
  simp [UInt32.toNat, BitVec.toNat_ofNat]

theorem toLowerChar_idem (c : Char) : toLowerChar (toLowerChar c) = toLowerChar c := by
  unfold toLowerChar
  by_cases h : 65 ≤ c.toNat ∧ c.toNat ≤ 90
  · rw [if_pos h]
    have h32 : (Char.ofNat (c.toNat + 32)).toNat = c.toNat + 32 :=
      char_ofNat_toNat _ (by omega)
    rw [if_neg (by rw [h32]; omega)]
  · rw [if_neg h, if_neg h]

theorem toLowerChar_of_ws (c : Char) (h : jsWhitespaceChar c = true) :
    toLowerChar c = c := by
  unfold jsWhitespaceChar at h
  simp only [decide_eq_true_eq, Bool.or_eq_true, Bool.and_eq_true] at h
  unfold toLowerChar
  rw [if_neg (by omega)]

theorem map_toLowerChar_fix (l : List Char) (h : ∀ c ∈ l, toLowerChar c = c) :
    l.map toLowerChar = l := by
  conv_rhs => rw [← List.map_id l]
  exact List.map_congr_left h

theorem mem_of_mem_jsTrimL {c : Char} {l : List Char} (h : c ∈ jsTrimL l) : c ∈ l := by
  unfold jsTrimL at h
  rw [List.mem_reverse] at h
  have h2 := (List.dropWhile_sublist (l := (l.dropWhile jsWhitespaceChar).reverse)
    (p := jsWhitespaceChar)).subset h
  rw [List.mem_reverse] at h2
  exact (List.dropWhile_sublist (l := l) (p := jsWhitespaceChar)).subset h2

theorem lowerStr_trim_lowerStr (q : String) :
    lowerStr (jsTrim (lowerStr q)) = jsTrim (lowerStr q) := by
  show String.mk ((jsTrimL (q.data.map toLowerChar)).map toLowerChar) =
    String.mk (jsTrimL (q.data.map toLowerChar))
  congr 1
  apply map_toLowerChar_fix
  intro c hc
  have hmem := mem_of_mem_jsTrimL hc
  obtain ⟨d, _, rfl⟩ := List.mem_map.mp hmem
  exact toLowerChar_idem d

theorem trim_lowerStr_of_ws (q : String) (h : ∀ c ∈ q.data, jsWhitespaceChar c = true) :
    jsTrim (lowerStr q) = "" := by
  show String.mk (jsTrimL (q.data.map toLowerChar)) = ""
  have hfix : q.data.map toLowerChar = q.data :=
    map_toLowerChar_fix _ (fun c hc => toLowerChar_of_ws c (h c hc))
  rw [hfix]
  unfold jsTrimL
  rw [List.dropWhile_eq_nil_iff.mpr (fun c hc => h c hc)]
  rfl

/-! ## Helper lemmas: case-insensitive tag deduplication -/

theorem uniqueTags_sublist (seen : List String) (l : List String) :
    (uniqueTags seen l).Sublist l := by
  induction l generalizing seen with
  | nil => simp [uniqueTags]
  | cons t ts ih =>
    unfold uniqueTags
    by_cases h : lowerStr t ∈ seen
    · rw [if_pos h]
      exact (ih seen).cons t
    · rw [if_neg h]
      exact (ih _).cons₂ t

theorem mem_uniqueTags_lower_notin {a : String} (seen l : List String)
    (h : a ∈ uniqueTags seen l) : lowerStr a ∉ seen := by
  induction l generalizing seen with
  | nil => simp [uniqueTags] at h
  | cons t ts ih =>
    unfold uniqueTags at h
    by_cases hm : lowerStr t ∈ seen
    · rw [if_pos hm] at h
      exact ih seen h
    · rw [if_neg hm] at h
      rcases List.mem_cons.mp h with rfl | h2
      · exact hm
      · intro hc
        exact ih _ h2 (List.mem_cons_of_mem _ hc)

theorem uniqueTags_pairwise (seen l : List String) :
    (uniqueTags seen l).Pairwise (fun a b => lowerStr a ≠ lowerStr b) := by
  induction l generalizing seen with
  | nil => simp [uniqueTags]
  | cons t ts ih =>
    unfold uniqueTags
    by_cases hm : lowerStr t ∈ seen
    · rw [if_pos hm]
      exact ih seen
    · rw [if_neg hm]
      rw [List.pairwise_cons]
      refine ⟨?_, ih _⟩
      intro b hb heq
      exact mem_uniqueTags_lower_notin _ _ hb (by rw [← heq]; exact List.mem_cons_self _ _)

/-! ## Claim theorems -/

/-- C1: for every valid draft `{name, url, tags}`, `create` (modelled by
`BookmarkDB.add`) followed by `get` with the returned id yields a record whose
`name`, `url` and `tags` equal the draft fields, with the assigned integer id
and a `createdAt` string in the `YYYY-MM-DD HH:MM` format naming the creation
instant at minute precision. -/
theorem C1_create_then_get (db : DB) (draft : Draft) (now : DateParts)
    (hwf : ∀ r ∈ db.records, r.id < db.nextId) (hnow : validDate now) :
    BookmarkDB.get (BookmarkDB.add db draft now).2 (BookmarkDB.add db draft now).1 =
      some { id := db.nextId, name := draft.name, url := draft.url,
             tags := draft.tags, createdAt := fmtDate now } ∧
    parseMinute? (fmtDate now) = some (encodeDate now) := by
  constructor
  · unfold BookmarkDB.add BookmarkDB.get
    dsimp only
    apply find?_append_last
    · intro r hr
      have := hwf r hr
      simp only [beq_eq_false_iff_ne, ne_eq]
      omega
    · simp
  · exact parse_fmtDate now hnow

/-- Witness for C1 at a concrete store, draft and instant. -/
theorem C1_create_then_get_witness :
    BookmarkDB.get
        (BookmarkDB.add ⟨[], 1⟩ ⟨"Alpha", "https://a.example", ["dev"]⟩ ⟨2024, 1, 2, 3, 4⟩).2
        (BookmarkDB.add ⟨[], 1⟩ ⟨"Alpha", "https://a.example", ["dev"]⟩ ⟨2024, 1, 2, 3, 4⟩).1 =
      some { id := 1, name := "Alpha", url := "https://a.example",
             tags := ["dev"], createdAt := fmtDate ⟨2024, 1, 2, 3, 4⟩ } ∧
    parseMinute? (fmtDate ⟨2024, 1, 2, 3, 4⟩) = some (encodeDate ⟨2024, 1, 2, 3, 4⟩) :=
  C1_create_then_get ⟨[], 1⟩ ⟨"Alpha", "https://a.example", ["dev"]⟩ ⟨2024, 1, 2, 3, 4⟩
    (by simp) (by decide)

/-- C2: updating an existing record through the edit form replaces `name`,
`url` and `tags` with the patch values; a patch whose `createdAt` field is
empty after trimming (or, in `BookmarkDB.update`, structurally absent) leaves
the stored `createdAt` unchanged, while a non-empty `createdAt` replaces it
with exactly that value. -/
theorem C2_update_createdAt (db : DB) (id : Nat) (p : Draft)
    (nameIn urlIn tagsIn createdIn : String) (val : Bookmark)
    (hfind : db.records.find? (fun r => r.id == id) = some val) :
    (∃ db1, updateBookmark id (buildEditPatch nameIn urlIn tagsIn createdIn) db = .ok db1 ∧
      BookmarkDB.get id db1 = some
        { id := id, name := jsTrim nameIn, url := jsTrim urlIn,
          tags := parseTags tagsIn,
          createdAt := if jsTrim createdIn = "" then val.createdAt
                       else jsTrim createdIn }) ∧
    (∃ db2, BookmarkDB.update id p db = .ok db2 ∧
      BookmarkDB.get id db2 = some
        { id := id, name := p.name, url := p.url, tags := p.tags,
          createdAt := val.createdAt }) := by
  have hsome : (db.records.find? (fun r => r.id == id)).isSome = true := by
    rw [hfind]; rfl
  constructor
  · refine ⟨{ db with records := db.records.map (fun r =>
        if r.id == id then
          { id := id, name := (buildEditPatch nameIn urlIn tagsIn createdIn).name,
            url := (buildEditPatch nameIn urlIn tagsIn createdIn).url,
            tags := (buildEditPatch nameIn urlIn tagsIn createdIn).tags,
            createdAt := (buildEditPatch nameIn urlIn tagsIn
              createdIn).createdAt.getD val.createdAt }
        else r) }, ?_, ?_⟩
    · unfold updateBookmark
      rw [hfind]
    · unfold BookmarkDB.get
      dsimp only
      rw [find?_map_update db.records id _ rfl hsome]
      unfold buildEditPatch
      dsimp only
      by_cases hc : jsTrim createdIn = ""
      · rw [if_pos hc, if_pos hc]; rfl
      · rw [if_neg hc, if_neg hc]; rfl
  · refine ⟨{ db with records := db.records.map (fun r =>
        if r.id == id then
          { id := id, name := p.name, url := p.url, tags := p.tags,
            createdAt := val.createdAt }
        else r) }, ?_, ?_⟩
    · unfold BookmarkDB.update
      rw [hfind]
    · unfold BookmarkDB.get
      dsimp only
      rw [find?_map_update db.records id _ rfl hsome]

/-- Witness for C2 at a concrete store and form input, covering the non-empty
`createdAt` override. -/
theorem C2_update_createdAt_witness :
    (∃ db1, updateBookmark 1
        (buildEditPatch " New " "https://n.example" "a,b" "2025-05-05 05:05")
        ⟨[⟨1, "Old", "https://o.example", [], "2024-01-01 00:00"⟩], 2⟩ = .ok db1 ∧
      BookmarkDB.get 1 db1 = some
        { id := 1, name := jsTrim " New ", url := jsTrim "https://n.example",
          tags := parseTags "a,b",
          createdAt := if jsTrim "2025-05-05 05:05" = "" then
              (⟨1, "Old", "https://o.example", [], "2024-01-01 00:00"⟩ : Bookmark).createdAt
            else jsTrim "2025-05-05 05:05" }) ∧
    (∃ db2, BookmarkDB.update 1 ⟨"N", "https://n2.example", ["x"]⟩
        ⟨[⟨1, "Old", "https://o.example", [], "2024-01-01 00:00"⟩], 2⟩ = .ok db2 ∧
      BookmarkDB.get 1 db2 = some
        { id := 1, name := "N", url := "https://n2.example", tags := ["x"],
          createdAt := (⟨1, "Old", "https://o.example", [], "2024-01-01 00:00"⟩ :
            Bookmark).createdAt }) :=
  C2_update_createdAt ⟨[⟨1, "Old", "https://o.example", [], "2024-01-01 00:00"⟩], 2⟩ 1
    ⟨"N", "https://n2.example", ["x"]⟩ " New " "https://n.example" "a,b" "2025-05-05 05:05"
    ⟨1, "Old", "https://o.example", [], "2024-01-01 00:00"⟩ (by decide)

/-- C3 counterexample: the claim requires every tag normalizer of the
repository to map the input `"dev, Dev ,  tools"` to exactly
`["dev", "tools"]`, but `parseTags` of the unnamed implementation keeps the
case-insensitive duplicate `"Dev"`, because it splits on ASCII commas only and
never deduplicates. -/
theorem C3_counterexample :
    ¬ (parseTags "dev, Dev ,  tools" = ["dev", "tools"]) := by decide

/-- C3 (amended): the `script.js` normalizer behaves as claimed — it splits on
runs of ASCII or full-width commas and semicolons and whitespace, trims,
discards empty tokens, and deduplicates case-insensitively keeping first-seen
casing and order (stated as: the output carries no two case-insensitively
equal entries and is a sublist of the trimmed token list), with
`"dev, Dev ,  tools"` giving `["dev", "tools"]` and empty input giving the
empty list; the unnamed `parseTags` instead splits on ASCII commas only and
keeps `["dev", "Dev", "tools"]` on the same input. -/
theorem C3_tag_normalization :
    (∀ raw : String,
      (BookmarkApp.normalizeTags raw).Pairwise (fun a b => lowerStr a ≠ lowerStr b) ∧
      (BookmarkApp.normalizeTags raw).Sublist (tagTokens (jsTrim raw))) ∧
    BookmarkApp.normalizeTags "dev, Dev ,  tools" = ["dev", "tools"] ∧
    BookmarkApp.normalizeTags "" = [] ∧
    parseTags "dev, Dev ,  tools" = ["dev", "Dev", "tools"] := by
  refine ⟨?_, by decide, by decide, by decide⟩
  intro raw
  show ((if jsTrim raw = "" then [] else uniqueTags [] (tagTokens (jsTrim raw))).Pairwise
      (fun a b => lowerStr a ≠ lowerStr b)) ∧
    (if jsTrim raw = "" then [] else uniqueTags [] (tagTokens (jsTrim raw))).Sublist
      (tagTokens (jsTrim raw))
  by_cases h : jsTrim raw = ""
  · rw [if_pos h]
    exact ⟨List.Pairwise.nil, List.nil_sublist _⟩
  · rw [if_neg h]
    exact ⟨uniqueTags_pairwise [] _, uniqueTags_sublist [] _⟩

/-- C4 counterexample: the claim requires keyword filtering to retain exactly
the records where the keyword occurs inside `name`, `url`, or one individual
tag; `matchesKeyword` of the unnamed implementation also retains this record
for the keyword `"b,c"`, which only occurs across the boundary of the joined
tags `"ab,cd"` and inside no single field. -/
theorem C4_counterexample :
    matchesKeyword ⟨1, "x", "https://y", ["ab", "cd"], "2024-01-01 00:00"⟩ "b,c" = true ∧
    claimKeywordMatch "b,c" ⟨1, "x", "https://y", ["ab", "cd"], "2024-01-01 00:00"⟩ = false := by
  decide

/-- C4 (amended): `BookmarkDB.search` of `script.js` behaves as claimed — a
whitespace-only query keeps every record, and otherwise exactly the records
matching the claim predicate (trimmed keyword case-insensitively inside
`name`, `url`, or an individual tag) are kept; `matchesKeyword` of the
unnamed implementation keeps everything on an empty keyword but otherwise
searches the comma-joined tags string, so keywords spanning adjacent tags
also match there. -/
theorem C4_keyword_filter :
    (∀ (q : String) (items : List Bookmark),
      ((∀ c ∈ q.data, jsWhitespaceChar c = true) → BookmarkDB.search q items = items) ∧
      (BookmarkDB.search q items =
        if jsTrim (lowerStr q) = "" then items
        else items.filter (fun b => claimKeywordMatch (jsTrim (lowerStr q)) b))) ∧
    (∀ item : Bookmark, matchesKeyword item "" = true) ∧
    (∀ (item : Bookmark) (kw : String), kw ≠ "" →
      matchesKeyword item kw =
        (strIncludes (lowerStr item.name) (lowerStr kw) ||
         strIncludes (lowerStr item.url) (lowerStr kw) ||
         strIncludes (lowerStr (joinSep "," item.tags)) (lowerStr kw))) := by
  refine ⟨?_, ?_, ?_⟩
  · intro q items
    constructor
    · intro hws
      have h0 : jsTrim (lowerStr q) = "" := trim_lowerStr_of_ws q hws
      show (if jsTrim (lowerStr q) = "" then items else _) = items
      rw [if_pos h0]
    · show (if jsTrim (lowerStr q) = "" then items else _) = _
      by_cases h : jsTrim (lowerStr q) = ""
      · rw [if_pos h, if_pos h]
      · rw [if_neg h, if_neg h]
        simp only [claimKeywordMatch, lowerStr_trim_lowerStr]
  · intro item
    unfold matchesKeyword
    rw [if_pos rfl]
  · intro item kw h
    unfold matchesKeyword
    rw [if_neg h]

/-- Witness for C4 at a whitespace-only query and a non-empty keyword. -/
theorem C4_keyword_filter_witness :
    BookmarkDB.search "   " [⟨1, "x", "https://y", ["ab"], "2024-01-01 00:00"⟩] =
      [⟨1, "x", "https://y", ["ab"], "2024-01-01 00:00"⟩] ∧
    matchesKeyword ⟨1, "x", "https://y", ["ab"], "2024-01-01 00:00"⟩ "ab" =
      (strIncludes (lowerStr "x") (lowerStr "ab") ||
       strIncludes (lowerStr "https://y") (lowerStr "ab") ||
       strIncludes (lowerStr (joinSep "," ["ab"])) (lowerStr "ab")) :=
  ⟨(C4_keyword_filter.1 "   " [⟨1, "x", "https://y", ["ab"], "2024-01-01 00:00"⟩]).1
      (by decide),
    C4_keyword_filter.2.2 ⟨1, "x", "https://y", ["ab"], "2024-01-01 00:00"⟩ "ab"
      (by decide)⟩

/-- C5: the query result set is sorted stably and strictly by `createdAt`
descending — the sorted set is pairwise descending on the date key, is a
permutation of its input, records with equal key keep their relative input
order (the filter to any fixed key is unchanged by sorting), and a record
created with a later timestamp than every stored one is first after a fresh
sort. -/
theorem C5_sort_stable_desc :
    (∀ l : List Bookmark,
      (sortByDateDesc l).Pairwise (fun a c => dateVal c.createdAt ≤ dateVal a.createdAt) ∧
      (sortByDateDesc l).Perm l ∧
      (∀ k : Nat, (sortByDateDesc l).filter (fun r => dateVal r.createdAt == k) =
        l.filter (fun r => dateVal r.createdAt == k))) ∧
    (∀ (db : DB) (draft : Draft) (now : DateParts), validDate now →
      (∀ r ∈ db.records, dateVal r.createdAt < encodeDate now) →
      sortByDateDesc (BookmarkDB.add db draft now).1.records =
        { id := db.nextId, name := draft.name, url := draft.url, tags := draft.tags,
          createdAt := fmtDate now } :: sortByDateDesc db.records) := by
  constructor
  · intro l
    exact ⟨sortByDateDesc_sorted l, sortByDateDesc_perm l,
      fun k => sortByDateDesc_filter l k⟩
  · intro db draft now hnow hlater
    unfold BookmarkDB.add
    dsimp only
    apply sortByDateDesc_append_newest
    intro r hr
    have hkey : dateVal (fmtDate now) = encodeDate now := by
      unfold dateVal
      rw [parse_fmtDate now hnow]
      rfl
    dsimp only
    rw [hkey]
    exact hlater r hr

/-- Witness for C5: a record created after two stored ones heads the freshly
sorted list. -/
theorem C5_sort_stable_desc_witness :
    sortByDateDesc (BookmarkDB.add
        ⟨[⟨1, "Alpha", "https://a.example", [], "2024-01-01 10:00"⟩,
          ⟨2, "Beta", "https://b.example", [], "2024-01-02 10:00"⟩], 3⟩
        ⟨"Gamma", "https://g.example", []⟩ ⟨2024, 1, 3, 10, 0⟩).1.records =
      { id := 3, name := "Gamma", url := "https://g.example", tags := [],
        createdAt := fmtDate ⟨2024, 1, 3, 10, 0⟩ } ::
      sortByDateDesc
        [⟨1, "Alpha", "https://a.example", [], "2024-01-01 10:00"⟩,
         ⟨2, "Beta", "https://b.example", [], "2024-01-02 10:00"⟩] :=
  C5_sort_stable_desc.2
    ⟨[⟨1, "Alpha", "https://a.example", [], "2024-01-01 10:00"⟩,
      ⟨2, "Beta", "https://b.example", [], "2024-01-02 10:00"⟩], 3⟩
    ⟨"Gamma", "https://g.example", []⟩ ⟨2024, 1, 3, 10, 0⟩ (by decide) (by decide)

/-- C6 counterexample: the claim requires a requested page below 1 to clamp to
page 1, but `BookmarkApp.goToPage` rejects the request and stays on the
current page — with 13 filtered records and current page 2, requesting page 0
leaves page 2 current instead of 1. -/
theorem C6_counterexample :
    BookmarkApp.goToPage 13 2 0 = 2 ∧ ¬ (BookmarkApp.goToPage 13 2 0 = 1) := by
  decide

/-- C6 (amended): with page size 12 the slices of pages `1..ceil(N/12)` are
disjoint and concatenate, in page order, back to the whole filtered list, and
each slice holds at most 12 records; `renderList` of the unnamed
implementation clamps a page above `max 1 (ceil(N/12))` down to that last page
and keeps any smaller page; `BookmarkApp.goToPage` of `script.js` instead
rejects every out-of-range request — above the page count or below 1 — as a
no-op keeping the current page, and accepts in-range pages. Neither
implementation errors, and neither clamps a below-1 request up to 1. -/
theorem C6_pagination :
    (∀ l : List Bookmark,
      ((List.range (totalPages l.length)).map (fun i => pageSlice l (i + 1))).flatten = l ∧
      (∀ p : Nat, (pageSlice l p).length ≤ 12)) ∧
    (∀ total page : Nat,
      (page > max 1 ((total + 11) / 12) →
        renderListPage total page = max 1 ((total + 11) / 12)) ∧
      (page ≤ max 1 ((total + 11) / 12) → renderListPage total page = page)) ∧
    (∀ len cur page : Nat,
      ((page < 1 ∨ page > totalPages len) → BookmarkApp.goToPage len cur page = cur) ∧
      (1 ≤ page → page ≤ totalPages len → BookmarkApp.goToPage len cur page = page)) := by
  refine ⟨?_, ?_, ?_⟩
  · intro l
    refine ⟨join_pageSlices_aux l.length l (le_refl _), ?_⟩
    intro p
    unfold pageSlice
    simp [List.length_take]
  · intro total page
    constructor
    · intro h
      unfold renderListPage
      rw [if_pos h]
    · intro h
      unfold renderListPage
      rw [if_neg (by omega)]
  · intro len cur page
    constructor
    · intro h
      unfold BookmarkApp.goToPage
      rw [if_pos (by simp only [Bool.or_eq_true, decide_eq_true_eq]; omega)]
    · intro h1 h2
      unfold BookmarkApp.goToPage
      rw [if_neg (by simp only [Bool.or_eq_true, decide_eq_true_eq]; omega)]

/-- Witness for C6: the unnamed clamp sends page 5 of 13 records to the last
page 2, and `goToPage` rejects page 9 of 25 records, keeping page 1. -/
theorem C6_pagination_witness :
    renderListPage 13 5 = max 1 ((13 + 11) / 12) ∧ BookmarkApp.goToPage 25 1 9 = 1 :=
  ⟨(C6_pagination.2.1 13 5).1 (by decide), (C6_pagination.2.2 25 1 9).1 (by decide)⟩

/-- C7 counterexample: the claim requires `delete` on an id with no record to
fail with a not-found error, but `deleteBookmark` resolves successfully on the
empty store for id 5 (the underlying keyed delete is a no-op on a missing
key), returning the store unchanged. -/
theorem C7_counterexample :
    deleteBookmark 5 ⟨[], 1⟩ = Except.ok ⟨[], 1⟩ ∧
    ∀ e : DBError, deleteBookmark 5 ⟨[], 1⟩ ≠ Except.error e := by
  constructor
  · rfl
  · intro e h
    cases h

/-- C7 (amended): `delete(id)` always succeeds — on an id with no record it is
a no-op returning the store unchanged — and after `delete(id)` the record is
absent: `get(id)` on the resulting store yields `none`. -/
theorem C7_delete_then_get (id : Nat) (db : DB) :
    deleteBookmark id db =
      .ok { db with records := db.records.filter (fun r => !(r.id == id)) } ∧
    BookmarkDB.get id { db with records := db.records.filter (fun r => !(r.id == id)) } =
      none ∧
    (BookmarkDB.get id db = none → deleteBookmark id db = .ok db) := by
  refine ⟨rfl, ?_, ?_⟩
  · unfold BookmarkDB.get
    dsimp only
    exact find?_filter_ne db.records id
  · intro h
    unfold BookmarkDB.get at h
    obtain ⟨recs, nid⟩ := db
    dsimp only at h ⊢
    unfold deleteBookmark
    dsimp only
    rw [filter_ne_of_absent recs id h]

/-- Witness for C7: deleting id 7 from a store holding only id 1 succeeds and
leaves the store unchanged. -/
theorem C7_delete_then_get_witness :
    deleteBookmark 7 ⟨[⟨1, "a", "https://a.example", [], "2024-01-01 00:00"⟩], 2⟩ =
      .ok ⟨[⟨1, "a", "https://a.example", [], "2024-01-01 00:00"⟩], 2⟩ :=
  (C7_delete_then_get 7
      ⟨[⟨1, "a", "https://a.example", [], "2024-01-01 00:00"⟩], 2⟩).2.2 (by decide)

/-- C8: a create whose trimmed name is empty, whose trimmed url is empty, or
whose url fails the URL-constructor syntax check is rejected with a validation
error before any store call — the error carries no new store state, so
nothing is persisted — and in particular the url `"not a url"` fails the
check in both implementations. -/
theorem C8_validation_rejects (db : DB) (now : DateParts) (nameIn urlIn tagsIn : String) :
    ((jsTrim nameIn = "" ∨ jsTrim urlIn = "" ∨ urlParses (jsTrim urlIn) = false) →
      BookmarkApp.handleFormSubmitAdd db now nameIn urlIn tagsIn = .error .validation) ∧
    urlParses "not a url" = false ∧
    isValidUrl "not a url" = false := by
  refine ⟨?_, by decide, by decide⟩
  intro h
  unfold BookmarkApp.handleFormSubmitAdd
  dsimp only
  by_cases h1 : jsTrim nameIn = "" ∨ jsTrim urlIn = ""
  · rw [if_pos (by simp only [Bool.or_eq_true, decide_eq_true_eq]; exact h1)]
  · rw [if_neg (by simp only [Bool.or_eq_true, decide_eq_true_eq]; exact h1)]
    have hurl : urlParses (jsTrim urlIn) = false := by tauto
    rw [if_neg (by simp [hurl])]

/-- Witness for C8: creating with url `"not a url"` is rejected with a
validation error and no record is persisted. -/
theorem C8_validation_rejects_witness :
    BookmarkApp.handleFormSubmitAdd ⟨[], 1⟩ ⟨2024, 1, 2, 3, 4⟩ "My site" "not a url" "" =
      .error .validation :=
  (C8_validation_rejects ⟨[], 1⟩ ⟨2024, 1, 2, 3, 4⟩ "My site" "not a url" "").1
    (Or.inr (Or.inr (by decide)))

/-- C9 counterexample: the claim requires the export to project the record set
sorted by `createdAt` descending, but `exportToExcel` of the unnamed
implementation emits rows in store order without sorting — on a store whose
first record is one day older than its second, the emitted rows are not
descending on the date key. -/
theorem C9_counterexample :
    ¬ (exportToExcel ⟨[⟨1, "a", "https://a.example", [], "2024-01-01 00:00"⟩,
        ⟨2, "b", "https://b.example", [], "2024-01-02 00:00"⟩], 3⟩).Pairwise
      (fun r s => dateVal s.createdAt ≤ dateVal r.createdAt) := by
  intro h
  have he : exportToExcel ⟨[⟨1, "a", "https://a.example", [], "2024-01-01 00:00"⟩,
      ⟨2, "b", "https://b.example", [], "2024-01-02 00:00"⟩], 3⟩ =
      [unnamedExportRow ⟨1, "a", "https://a.example", [], "2024-01-01 00:00"⟩,
       unnamedExportRow ⟨2, "b", "https://b.example", [], "2024-01-02 00:00"⟩] := rfl
  rw [he, List.pairwise_cons] at h
  have hle := h.1 (unnamedExportRow ⟨2, "b", "https://b.example", [], "2024-01-02 00:00"⟩)
    (by simp)
  revert hle
  decide

/-- C9 (amended): `BookmarkApp.exportToExcel` of `script.js` projects the full
non-empty record set sorted by `createdAt` descending into rows with exactly
the columns id, name, url, joined tags, and `createdAt`, in that order; the
unnamed `exportToExcel` projects the same columns but emits the rows in store
order (ascending id), without sorting. -/
theorem C9_export_projection (db : DB) (hne : db.records ≠ []) :
    (∃ rows, BookmarkApp.exportToExcel db = some rows ∧
      rows.Pairwise (fun r s => dateVal s.createdAt ≤ dateVal r.createdAt) ∧
      rows.Perm (db.records.map scriptExportRow)) ∧
    exportToExcel db = db.records.map unnamedExportRow ∧
    (∀ b : Bookmark, scriptExportRow b =
      { id := b.id, name := b.name, url := b.url, tags := joinSep "，" b.tags,
        createdAt := b.createdAt }) := by
  refine ⟨?_, rfl, fun b => rfl⟩
  refine ⟨(sortByDateDesc db.records).map scriptExportRow, ?_, ?_, ?_⟩
  · unfold BookmarkApp.exportToExcel
    rw [if_neg (by simp [List.isEmpty_iff, hne])]
  · rw [List.pairwise_map]
    exact sortByDateDesc_sorted db.records
  · exact (sortByDateDesc_perm db.records).map scriptExportRow

/-- Witness for C9 at a two-record store. -/
theorem C9_export_projection_witness :
    (∃ rows, BookmarkApp.exportToExcel
        ⟨[⟨1, "a", "https://a.example", [], "2024-01-01 00:00"⟩,
          ⟨2, "b", "https://b.example", [], "2024-01-02 00:00"⟩], 3⟩ = some rows ∧
      rows.Pairwise (fun r s => dateVal s.createdAt ≤ dateVal r.createdAt) ∧
      rows.Perm ([⟨1, "a", "https://a.example", [], "2024-01-01 00:00"⟩,
        ⟨2, "b", "https://b.example", [], "2024-01-02 00:00"⟩].map scriptExportRow)) ∧
    exportToExcel ⟨[⟨1, "a", "https://a.example", [], "2024-01-01 00:00"⟩,
        ⟨2, "b", "https://b.example", [], "2024-01-02 00:00"⟩], 3⟩ =
      [⟨1, "a", "https://a.example", [], "2024-01-01 00:00"⟩,
       ⟨2, "b", "https://b.example", [], "2024-01-02 00:00"⟩].map unnamedExportRow ∧
    (∀ b : Bookmark, scriptExportRow b =
      { id := b.id, name := b.name, url := b.url, tags := joinSep "，" b.tags,
        createdAt := b.createdAt }) :=
  C9_export_projection
    ⟨[⟨1, "a", "https://a.example", [], "2024-01-01 00:00"⟩,
      ⟨2, "b", "https://b.example", [], "2024-01-02 00:00"⟩], 3⟩ (by decide)

/-- C10: `parseTags` of the unnamed implementation returns at most 12 tags —
it is exactly the uncapped token pipeline truncated to its first 12 entries,
so tokens after the twelfth are silently dropped and no error is reported; a
13-token input keeps only the first 12. -/
theorem C10_parseTags_cap : ∀ s : String,
    parseTags s = (parseTagsNoCap s).take 12 ∧
    (parseTags s).length ≤ 12 ∧
    parseTags "a,b,c,d,e,f,g,h,i,j,k,l,m" =
      ["a", "b", "c", "d", "e", "f", "g", "h", "i", "j", "k", "l"] := by
  intro s
  refine ⟨?_, ?_, by decide⟩
  · unfold parseTags parseTagsNoCap
    by_cases h : s = ""
    · rw [if_pos h, if_pos h]
      rfl
    · rw [if_neg h, if_neg h]
  · unfold parseTags
    by_cases h : s = ""
    · rw [if_pos h]
      simp
    · rw [if_neg h]
      simp only [List.length_take]
      omega
